import Mathlib

/-!
Shallow embedding of `src/lib/config/sfdxConfigAggregator.ts`.

JS objects with string keys are modelled as association lists in insertion
order; `undefined`/`null` is modelled by `Option`.  Config values are the
scalars the data model allows (string or boolean).  Thrown `SfdxError`s are
modelled with `Except`.  The external collaborators (`SfdxConfig` stores,
the allowed-property schema, `process.env`) are inputs supplied in a
`World` value; file reads are modelled as pure (a store's contents are the
contents its `read()` would load).
-/

namespace SfdxCore

/-- A config value: each key maps to one scalar (string or boolean). -/
inductive Val where
  | str (s : String)
  | boolVal (b : Bool)
deriving Repr, DecidableEq

/-- JavaScript truthiness of a scalar config value: a string is truthy iff
nonempty, a boolean iff `true`. -/
def Val.truthy : Val → Bool
  | .str s => s ≠ ""
  | .boolVal b => b

/-- Truthiness of a possibly-`undefined` value (`undefined` is falsy). -/
def truthyOpt : Option Val → Bool
  | some v => v.truthy
  | none => false

instance {ε α : Type} [DecidableEq ε] [DecidableEq α] : DecidableEq (Except ε α) := fun a b =>
  match a, b with
  | .error e, .error f =>
    if h : e = f then isTrue (congrArg Except.error h)
    else isFalse (fun hc => h (Except.error.inj hc))
  | .error _, .ok _ => isFalse (fun hc => Except.noConfusion hc)
  | .ok _, .error _ => isFalse (fun hc => Except.noConfusion hc)
  | .ok x, .ok y =>
    if h : x = y then isTrue (congrArg Except.ok h)
    else isFalse (fun hc => h (Except.ok.inj hc))

def isLowerAlpha (c : Char) : Bool := 'a' ≤ c && c ≤ 'z'

def isUpperAlpha (c : Char) : Bool := 'A' ≤ c && c ≤ 'Z'

def isDigitCh (c : Char) : Bool := '0' ≤ c && c ≤ '9'

/-- Word splitting of lodash `_.words` restricted to ASCII identifier-like
strings (the domain of config keys): maximal lower-case runs, digit runs,
and upper-case runs, where an upper-case run followed by a lower-case run
donates its last letter to the following word (`FOOBar` → `FOO`, `Bar`),
and a single upper followed by lowers forms one word (`Version`). -/
def splitWordsGo : Nat → List Char → List (List Char)
  | _, [] => []
  | 0, _ :: _ => []
  | fuel + 1, c :: rest =>
    if isLowerAlpha c then
      (c :: rest.takeWhile isLowerAlpha) :: splitWordsGo fuel (rest.dropWhile isLowerAlpha)
    else if isDigitCh c then
      (c :: rest.takeWhile isDigitCh) :: splitWordsGo fuel (rest.dropWhile isDigitCh)
    else if isUpperAlpha c then
      let uppers := rest.takeWhile isUpperAlpha
      let rest1 := rest.dropWhile isUpperAlpha
      if rest1.head?.elim false isLowerAlpha then
        let lowers := rest1.takeWhile isLowerAlpha
        let rest2 := rest1.dropWhile isLowerAlpha
        match uppers.getLast? with
        | some u => (c :: uppers.dropLast) :: (u :: lowers) :: splitWordsGo fuel rest2
        | none => (c :: lowers) :: splitWordsGo fuel rest2
      else
        (c :: uppers) :: splitWordsGo fuel rest1
    else
      splitWordsGo fuel rest

/-- The word splitting, run with enough fuel: every step of `splitWordsGo`
consumes at least the head character, so the list's length bounds the
number of steps. -/
def splitWordsAux (l : List Char) : List (List Char) := splitWordsGo l.length l

/-- lodash `_.snakeCase`: join the words with underscores, lower-cased. -/
def snakeCase (s : String) : String :=
  String.intercalate "_" ((splitWordsAux s.data).map (fun w => String.mk (w.map Char.toLower)))

/-- `String.prototype.toUpperCase()` on the ASCII domain of config keys:
upper-case each character. -/
def toUpperAscii (s : String) : String := String.mk (s.data.map Char.toUpper)

/-- `const propertyToEnvName = (property) => `SFDX_${_.snakeCase(property).toUpperCase()}`;` -/
def propertyToEnvName (property : String) : String :=
  "SFDX_" ++ toUpperAscii (snakeCase property)

/-- `export const enum LOCATIONS { GLOBAL, LOCAL, ENVIRONMENT }` -/
inductive LOCATIONS where
  | GLOBAL
  | LOCAL
  | ENVIRONMENT
deriving Repr, DecidableEq

/-- Thrown `SfdxError`s carry a message and a name used for discrimination. -/
structure SfdxError where
  message : String
  name : String
deriving Repr, DecidableEq

/-- Property metadata from the allowed-keys schema (`ConfigPropertyMeta`);
only the `key` field is consulted by the aggregator. -/
structure ConfigPropertyMeta where
  key : String
deriving Repr, DecidableEq

/-- An `SfdxConfig` store collaborator after `read()`: its flat contents
mapping and its on-disk path. -/
structure SfdxConfig where
  contents : List (String × Val)
  path : String
deriving Repr, DecidableEq

/-- JS object property lookup on an association list (`obj[key]`):
first binding wins, absent keys give `undefined`. -/
def objGet {β : Type} (m : List (String × β)) (key : String) : Option β :=
  (m.find? (fun p => p.1 == key)).map (fun p => p.2)

/-- `SfdxConfig.prototype.get(key)`. -/
def SfdxConfig.get (c : SfdxConfig) (key : String) : Option Val :=
  objGet c.contents key

/-- `SfdxConfig.prototype.toObject()`. -/
def SfdxConfig.toObject (c : SfdxConfig) : List (String × Val) := c.contents

/-- `SfdxConfig.prototype.getPath()`. -/
def SfdxConfig.getPath (c : SfdxConfig) : String := c.path

/-- JS object property assignment `obj[key] = v`: overwrite in place when
the key exists, append otherwise. -/
def setKey (m : List (String × Val)) (key : String) (v : Val) : List (String × Val) :=
  if m.any (fun p => p.1 == key) then
    m.map (fun p => if p.1 == key then (key, v) else p)
  else
    m ++ [(key, v)]

/-- `_.merge(base, overlay)` for flat scalar objects: overlay each binding
of `overlay` onto `base`, last writer wins per key. -/
def mergeObj (base overlay : List (String × Val)) : List (String × Val) :=
  overlay.foldl (fun acc p => setKey acc p.1 p.2) base

/-- The environment-variable layer built in `loadProperties`: for each
allowed property, read `process.env[propertyToEnvName(key)]` and record it
under the property key when set. -/
def buildEnvVars : List ConfigPropertyMeta → List (String × String) → List (String × String)
  | [], _ => []
  | p :: rest, env =>
    match objGet env (propertyToEnvName p.key) with
    | some v => (p.key, v) :: buildEnvVars rest env
    | none => buildEnvVars rest env

/-- The env-var layer viewed as a config object (env values are strings). -/
def envAsObject (env : List (String × String)) : List (String × Val) :=
  env.map (fun p => (p.1, Val.str p.2))

/-- The external inputs of one load: the outcomes of constructing the local
and global `SfdxConfig` stores, the allowed-property schema, and a snapshot
of `process.env`. -/
structure World where
  localCreate : Except SfdxError SfdxConfig
  globalCreate : Except SfdxError SfdxConfig
  allowed : List ConfigPropertyMeta
  processEnv : List (String × String)
deriving Repr, DecidableEq

/-- The aggregator's mutable fields; `none` is a field that has never been
assigned (`undefined`). -/
structure AggState where
  allowedProperties : Option (List ConfigPropertyMeta)
  localConfig : Option SfdxConfig
  globalConfig : Option SfdxConfig
  envVars : Option (List (String × String))
  config : Option (List (String × Val))
deriving Repr, DecidableEq

/-- The field state of a freshly constructed aggregator. -/
def initialState : AggState := ⟨none, none, none, none, none⟩

/-- An aggregator after a successful `loadProperties`: every field has been
assigned (the local store only when one was ever constructed). -/
structure Loaded where
  allowedProperties : List ConfigPropertyMeta
  localConfig : Option SfdxConfig
  globalConfig : SfdxConfig
  envVars : List (String × String)
  config : List (String × Val)
deriving Repr, DecidableEq

/-- The field state a successful load leaves behind. -/
def Loaded.toState (a : Loaded) : AggState :=
  ⟨some a.allowedProperties, a.localConfig, some a.globalConfig, some a.envVars, some a.config⟩

/-- The contents pushed for the local layer: present only when a local
store is held (`if (this.localConfig) { ... configs.push(...) }`). -/
def localContents : Option SfdxConfig → List (List (String × Val))
  | some lc => [lc.contents]
  | none => []

/-- `loadProperties` after the local-store step: construct the global
store, record the schema and the env-var layer, then fold
`[global, local?, env]` into the resolved snapshot with `_.merge`.
A failure carries the fields as mutated so far. -/
def loadRest (st : AggState) (w : World) : Except (SfdxError × AggState) Loaded :=
  match w.globalCreate with
  | .error e => .error (e, st)
  | .ok g =>
    let env := buildEnvVars w.allowed w.processEnv
    let configs := [g.toObject] ++ localContents st.localConfig ++ [envAsObject env]
    .ok ⟨w.allowed, st.localConfig, g, env, configs.foldl mergeObj []⟩

/-- `setLocalConfig`: assign the `localConfig` field. -/
def setLocalConfig (st : AggState) (c : SfdxConfig) : AggState :=
  ⟨st.allowedProperties, some c, st.globalConfig, st.envVars, st.config⟩

/-- `private async loadProperties()`: construct the local store, swallowing
only `InvalidProjectWorkspace` (leaving the field untouched in that case),
then proceed with the global store, schema, env vars and merge. -/
def loadProperties (st : AggState) (w : World) : Except (SfdxError × AggState) Loaded :=
  match w.localCreate with
  | .error e =>
    if e.name ≠ "InvalidProjectWorkspace" then .error (e, st)
    else loadRest st w
  | .ok lc => loadRest (setLocalConfig st lc) w

/-- `SfdxConfigAggregator.create()`: fresh instance, then `loadProperties`. -/
def SfdxConfigAggregator.create (w : World) : Except SfdxError Loaded :=
  match loadProperties initialState w with
  | .error (e, _) => .error e
  | .ok a => .ok a

/-- `reload()`: run `loadProperties` again over the existing fields. -/
def Loaded.reload (a : Loaded) (w : World) : Except (SfdxError × AggState) Loaded :=
  loadProperties a.toState w

/-- `getConfig()`. -/
def Loaded.getConfig (a : Loaded) : List (String × Val) := a.config

/-- `getEnvVars()` (a `Map` built from the `envVars` object). -/
def Loaded.getEnvVars (a : Loaded) : List (String × String) := a.envVars

/-- `getLocalConfig()`. -/
def Loaded.getLocalConfig (a : Loaded) : Option SfdxConfig := a.localConfig

/-- `getGlobalConfig()`. -/
def Loaded.getGlobalConfig (a : Loaded) : SfdxConfig := a.globalConfig

/-- `getAllowedProperties()`. -/
def Loaded.getAllowedProperties (a : Loaded) : List ConfigPropertyMeta := a.allowedProperties

/-- `getPropertyValue(key)`: the resolved value when the key is in the
allowed schema, otherwise a thrown `UnknownConfigKey` error. -/
def Loaded.getPropertyValue (a : Loaded) (key : String) : Except SfdxError (Option Val) :=
  if a.allowedProperties.any (fun element => key == element.key) then
    .ok (objGet a.config key)
  else
    .error ⟨s!"Unknown config key: {key}", "UnknownConfigKey"⟩

/-- `getLocation(key)`: Environment when the env-var layer has the key
(presence), else Local when the local store holds a truthy value, else
Global when the global store holds a truthy value, else `null`. -/
def Loaded.getLocation (a : Loaded) (key : String) : Option LOCATIONS :=
  if (objGet a.envVars key).isSome then
    some .ENVIRONMENT
  else if (match a.localConfig with
           | some lc => truthyOpt (lc.get key)
           | none => false) then
    some .LOCAL
  else if truthyOpt (a.globalConfig.get key) then
    some .GLOBAL
  else
    none

/-- `getPath(key)`: the `$`-prefixed env-var name when the env-var layer
has the key, else the local store's path when its raw contents contain the
key, else the global store's path when its raw contents contain the key,
else `null`. -/
def Loaded.getPath (a : Loaded) (key : String) : Option String :=
  if (objGet a.envVars key).isSome then
    some ("$" ++ propertyToEnvName key)
  else if (match a.localConfig with
           | some lc => (objGet lc.contents key).isSome
           | none => false) then
    a.localConfig.map SfdxConfig.getPath
  else if (objGet a.globalConfig.contents key).isSome then
    some a.globalConfig.path
  else
    none

/-- One record of `getConfigInfo`; the three location predicates are
computed from `location`, never stored. -/
structure ConfigInfo where
  key : String
  location : Option LOCATIONS
  value : Option Val
  path : Option String
deriving Repr, DecidableEq

def ConfigInfo.isLocal (i : ConfigInfo) : Bool := i.location == some .LOCAL

def ConfigInfo.isGlobal (i : ConfigInfo) : Bool := i.location == some .GLOBAL

def ConfigInfo.isEnvVar (i : ConfigInfo) : Bool := i.location == some .ENVIRONMENT

/-- `getInfo(key)`: location, value (which may throw `UnknownConfigKey`)
and path for one key. -/
def Loaded.getInfo (a : Loaded) (key : String) : Except SfdxError ConfigInfo :=
  match a.getPropertyValue key with
  | .error e => .error e
  | .ok v => .ok ⟨key, a.getLocation key, v, a.getPath key⟩

/-- The comparison of `_.sortBy(info, 'key')`. -/
def keyLe (x y : ConfigInfo) : Prop := x.key ≤ y.key

instance : DecidableRel keyLe := fun x y => inferInstanceAs (Decidable (x.key ≤ y.key))

/-- `getConfigInfo()`: one `getInfo` per key of the resolved snapshot (in
object order, first thrown error propagating), stably sorted by key. -/
def Loaded.getConfigInfo (a : Loaded) : Except SfdxError (List ConfigInfo) :=
  match (a.config.map Prod.fst).mapM a.getInfo with
  | .error e => .error e
  | .ok info => .ok (List.insertionSort keyLe info)

instance : IsTotal ConfigInfo keyLe := ⟨fun a b => le_total a.key b.key⟩

instance : IsTrans ConfigInfo keyLe := ⟨fun _ _ _ h1 h2 => le_trans h1 h2⟩

/-! ### Concrete example worlds and the aggregators they load -/

/-- A world where the key `apiVersion` is set in all three layers. -/
def wAll : World :=
  ⟨.ok ⟨[("apiVersion", .str "40.0")], "/project/.sfdx/sfdx-config.json"⟩,
    .ok ⟨[("apiVersion", .str "38.0")], "/home/user/.sfdx/sfdx-config.json"⟩,
    [⟨"apiVersion"⟩], [("SFDX_API_VERSION", "42.0")]⟩

/-- The aggregator `wAll` loads: the Environment value wins. -/
def aAll : Loaded :=
  ⟨[⟨"apiVersion"⟩],
    some ⟨[("apiVersion", .str "40.0")], "/project/.sfdx/sfdx-config.json"⟩,
    ⟨[("apiVersion", .str "38.0")], "/home/user/.sfdx/sfdx-config.json"⟩,
    [("apiVersion", "42.0")],
    [("apiVersion", .str "42.0")]⟩

/-- A world where Local sets `restDeploy = false` and Global sets it `true`. -/
def wAsym : World :=
  ⟨.ok ⟨[("restDeploy", .boolVal false)], "/project/.sfdx/sfdx-config.json"⟩,
    .ok ⟨[("restDeploy", .boolVal true)], "/home/user/.sfdx/sfdx-config.json"⟩,
    [⟨"restDeploy"⟩], []⟩

/-- The aggregator `wAsym` loads: the merge keeps Local's `false`. -/
def aAsym : Loaded :=
  ⟨[⟨"restDeploy"⟩],
    some ⟨[("restDeploy", .boolVal false)], "/project/.sfdx/sfdx-config.json"⟩,
    ⟨[("restDeploy", .boolVal true)], "/home/user/.sfdx/sfdx-config.json"⟩,
    [], [("restDeploy", .boolVal false)]⟩

/-- A world with no project workspace whose Global layer holds only a falsy
value for `restDeploy`. -/
def wFalsy : World :=
  ⟨.error ⟨"no project workspace", "InvalidProjectWorkspace"⟩,
    .ok ⟨[("restDeploy", .boolVal false)], "/home/user/.sfdx/sfdx-config.json"⟩,
    [⟨"restDeploy"⟩], []⟩

/-- The aggregator `wFalsy` loads: `restDeploy` is in the snapshot but no
layer holds a truthy value for it. -/
def aFalsy : Loaded :=
  ⟨[⟨"restDeploy"⟩], none,
    ⟨[("restDeploy", .boolVal false)], "/home/user/.sfdx/sfdx-config.json"⟩,
    [], [("restDeploy", .boolVal false)]⟩

/-- A world whose Global file holds a key (`rogue`) that is not in the
allowed-keys schema. -/
def wRogue : World :=
  ⟨.error ⟨"no project workspace", "InvalidProjectWorkspace"⟩,
    .ok ⟨[("rogue", .str "x"), ("apiVersion", .str "38.0")],
      "/home/user/.sfdx/sfdx-config.json"⟩,
    [⟨"apiVersion"⟩], []⟩

/-- The aggregator `wRogue` loads: the snapshot contains the non-schema
key `rogue`. -/
def aRogue : Loaded :=
  ⟨[⟨"apiVersion"⟩], none,
    ⟨[("rogue", .str "x"), ("apiVersion", .str "38.0")],
      "/home/user/.sfdx/sfdx-config.json"⟩,
    [], [("rogue", .str "x"), ("apiVersion", .str "38.0")]⟩

/-- The spec's scenario: env `SFDX_LOG_LEVEL=DEBUG`, no local project,
global file `{"logLevel": "INFO"}`. -/
def wScenario : World :=
  ⟨.error ⟨"no project workspace", "InvalidProjectWorkspace"⟩,
    .ok ⟨[("logLevel", .str "INFO")], "/home/user/.sfdx/sfdx-config.json"⟩,
    [⟨"logLevel"⟩], [("SFDX_LOG_LEVEL", "DEBUG")]⟩

/-- The aggregator `wScenario` loads. -/
def aScenario : Loaded :=
  ⟨[⟨"logLevel"⟩], none,
    ⟨[("logLevel", .str "INFO")], "/home/user/.sfdx/sfdx-config.json"⟩,
    [("logLevel", "DEBUG")], [("logLevel", .str "DEBUG")]⟩

/-- A freshly discovered local store, used to exercise a reload. -/
def lcNew : SfdxConfig := ⟨[("apiVersion", .str "41.0")], "/newproject/.sfdx/sfdx-config.json"⟩

/-- A fatal (non-workspace) error from the Global store's construction. -/
def eFail : SfdxError := ⟨"EACCES: permission denied", "EACCES"⟩

/-- A world whose Local store construction succeeds but whose Global store
construction fails fatally. -/
def wFail : World := ⟨.ok lcNew, .error eFail, [⟨"apiVersion"⟩], []⟩

/-- The value of the last binding of a key in an association list. -/
def lastVal : List (String × Val) → String → Option Val
  | [], _ => none
  | p :: t, k =>
    match lastVal t k with
    | some v => some v
    | none => if p.1 == k then some p.2 else none

/-- The contents of an optional local store viewed as a config object. -/
def localObj : Option SfdxConfig → List (String × Val)
  | some lc => lc.contents
  | none => []

/-- The merged snapshot a successful load computes, as a function of the
layers it retains: Global's contents first, Local's contents (when a local
store is held) overlaid, the env-var layer overlaid last. -/
def resolvedOf (a : Loaded) : List (String × Val) :=
  mergeObj (mergeObj (mergeObj [] a.globalConfig.contents) (localObj a.localConfig))
    (envAsObject a.envVars)

/-! ### Lookup and merge algebra -/

theorem objGet_nil {β : Type} (k : String) : objGet ([] : List (String × β)) k = none := rfl

theorem objGet_cons {β : Type} (p : String × β) (t : List (String × β)) (k : String) :
    objGet (p :: t) k = if p.1 == k then some p.2 else objGet t k := by
  by_cases h : p.1 = k
  · have hb : (p.1 == k) = true := by simpa using h
    simp only [objGet, List.find?, hb]
    rfl
  · have hb : (p.1 == k) = false := by simpa using h
    simp only [objGet, List.find?, hb]
    rfl

theorem objGet_map_replace_ne (kk : String) (v : Val) (k : String) (hne : kk ≠ k) :
    ∀ m : List (String × Val),
      objGet (m.map (fun p => if p.1 == kk then (kk, v) else p)) k = objGet m k
  | [] => rfl
  | p :: t => by
    have ht := objGet_map_replace_ne kk v k hne t
    by_cases hp : p.1 = kk
    · have hb : (p.1 == kk) = true := by simpa using hp
      rw [List.map_cons, if_pos hb, objGet_cons, objGet_cons,
        if_neg (by simpa using hne),
        if_neg (by simp only [beq_iff_eq, hp]; exact hne), ht]
    · have hb : (p.1 == kk) = false := by simpa using hp
      rw [List.map_cons, if_neg (by simp [hb]), objGet_cons, objGet_cons, ht]

theorem objGet_map_replace_self (kk : String) (v : Val) :
    ∀ m : List (String × Val), m.any (fun p => p.1 == kk) = true →
      objGet (m.map (fun p => if p.1 == kk then (kk, v) else p)) kk = some v
  | p :: t, h => by
    by_cases hp : p.1 = kk
    · simp [objGet_cons, beq_iff_eq, hp]
    · simp only [List.any_cons, Bool.or_eq_true, beq_iff_eq, hp, false_or] at h
      have hb : (p.1 == kk) = false := by simpa using hp
      rw [List.map_cons, if_neg (by simp [hb]), objGet_cons, if_neg (by simp [hb])]
      exact objGet_map_replace_self kk v t h

theorem objGet_none_of_not_found (k : String) :
    ∀ m : List (String × Val), m.any (fun p => p.1 == k) = false → objGet m k = none
  | [], _ => rfl
  | p :: t, h => by
    simp only [List.any_cons, Bool.or_eq_false_iff] at h
    simp [objGet_cons, h.1, objGet_none_of_not_found k t h.2]

theorem objGet_setKey (m : List (String × Val)) (kk : String) (v : Val) (k : String) :
    objGet (setKey m kk v) k = if k == kk then some v else objGet m k := by
  unfold setKey
  by_cases hmem : m.any (fun p => p.1 == kk) = true
  · rw [if_pos hmem]
    by_cases hk : k = kk
    · subst hk
      rw [if_pos (by simp)]
      exact objGet_map_replace_self k v m hmem
    · rw [if_neg (by simpa using hk)]
      exact objGet_map_replace_ne kk v k (Ne.symm hk) m
  · rw [if_neg hmem]
    have h0 : objGet m kk = none :=
      objGet_none_of_not_found kk m (Bool.not_eq_true _ ▸ hmem)
    have hfind : m.find? (fun p => p.1 == kk) = none := by
      simpa only [objGet, Option.map_eq_none'] using h0
    by_cases hk : k = kk
    · subst hk
      rw [if_pos (by simp)]
      simp only [objGet, List.find?_append, hfind]
      simp [List.find?]
    · rw [if_neg (by simpa using hk)]
      simp only [objGet, List.find?_append]
      cases hf : m.find? (fun p => p.1 == k) with
      | some p => simp [hf]
      | none =>
        have hb : (kk == k) = false := by
          simpa using fun hc => hk hc.symm
        simp [hf, List.find?, hb]

theorem objGet_mergeObj :
    ∀ (overlay base : List (String × Val)) (k : String),
      objGet (mergeObj base overlay) k =
        match lastVal overlay k with
        | some v => some v
        | none => objGet base k
  | [], base, k => rfl
  | p :: t, base, k => by
    show objGet (mergeObj (setKey base p.1 p.2) t) k = _
    rw [objGet_mergeObj t (setKey base p.1 p.2) k]
    show _ = (match (match lastVal t k with
        | some v => some v
        | none => if p.1 == k then some p.2 else none) with
      | some v => some v
      | none => objGet base k)
    cases lastVal t k with
    | some v => rfl
    | none =>
      simp only [objGet_setKey]
      by_cases hk : k = p.1
      · simp [hk]
      · simp [hk, Ne.symm hk]

theorem lastVal_of_not_mem (k : String) :
    ∀ m : List (String × Val), k ∉ m.map Prod.fst → lastVal m k = none
  | [], _ => rfl
  | p :: t, h => by
    simp only [List.map_cons, List.mem_cons, not_or] at h
    unfold lastVal
    rw [lastVal_of_not_mem k t h.2]
    simp [Ne.symm h.1]

theorem lastVal_eq_objGet (k : String) :
    ∀ m : List (String × Val), (m.map Prod.fst).Nodup → lastVal m k = objGet m k
  | [], _ => rfl
  | p :: t, h => by
    simp only [List.map_cons, List.nodup_cons] at h
    unfold lastVal
    rw [lastVal_eq_objGet k t h.2, objGet_cons]
    by_cases hk : p.1 = k
    · subst hk
      have hany : t.any (fun q => q.1 == p.1) = false := by
        by_contra hc
        rw [Bool.not_eq_false, List.any_eq_true] at hc
        obtain ⟨q, hq, hbeq⟩ := hc
        exact h.1 ((beq_iff_eq.mp hbeq) ▸ List.mem_map_of_mem Prod.fst hq)
      rw [objGet_none_of_not_found p.1 t hany]
    · have hb : (p.1 == k) = false := by simpa using hk
      rw [hb]
      cases objGet t k <;> simp

theorem keys_map_replace (kk : String) (v : Val) (m : List (String × Val)) :
    ((m.map (fun p => if p.1 == kk then (kk, v) else p)).map Prod.fst) = m.map Prod.fst := by
  rw [List.map_map]
  apply List.map_congr_left
  intro p _
  by_cases hp : p.1 = kk
  · simp [Function.comp, hp]
  · simp [Function.comp, hp]

theorem keys_setKey (m : List (String × Val)) (kk : String) (v : Val) :
    (setKey m kk v).map Prod.fst =
      if m.any (fun p => p.1 == kk) then m.map Prod.fst else m.map Prod.fst ++ [kk] := by
  unfold setKey
  by_cases hmem : m.any (fun p => p.1 == kk) = true
  · rw [if_pos hmem, if_pos hmem]
    exact keys_map_replace kk v m
  · rw [if_neg hmem, if_neg hmem]
    simp

theorem nodup_keys_setKey (m : List (String × Val)) (kk : String) (v : Val)
    (h : (m.map Prod.fst).Nodup) : ((setKey m kk v).map Prod.fst).Nodup := by
  rw [keys_setKey]
  by_cases hmem : m.any (fun p => p.1 == kk) = true
  · rwa [if_pos hmem]
  · rw [if_neg hmem]
    apply List.Nodup.append h (List.nodup_singleton kk)
    intro x hx hx1
    rw [List.mem_singleton] at hx1
    subst hx1
    obtain ⟨p, hp, hpk⟩ := List.mem_map.mp hx
    exact hmem (List.any_eq_true.mpr ⟨p, hp, beq_iff_eq.mpr hpk⟩)

theorem nodup_keys_mergeObj :
    ∀ (overlay base : List (String × Val)), (base.map Prod.fst).Nodup →
      ((mergeObj base overlay).map Prod.fst).Nodup
  | [], _, h => h
  | p :: t, base, h =>
    nodup_keys_mergeObj t (setKey base p.1 p.2) (nodup_keys_setKey base p.1 p.2 h)

theorem objGet_envAsObject (k : String) :
    ∀ env : List (String × String),
      objGet (envAsObject env) k = (objGet env k).map Val.str
  | [] => rfl
  | p :: t => by
    show objGet ((p.1, Val.str p.2) :: envAsObject t) k = _
    rw [objGet_cons, objGet_cons]
    by_cases hp : p.1 = k
    · simp [hp]
    · simp [hp, objGet_envAsObject k t]

theorem keys_envAsObject :
    ∀ env : List (String × String), (envAsObject env).map Prod.fst = env.map Prod.fst
  | [] => rfl
  | p :: t => by
    show p.1 :: (envAsObject t).map Prod.fst = p.1 :: t.map Prod.fst
    exact congrArg (p.1 :: ·) (keys_envAsObject t)

theorem objGet_buildEnvVars (k : String) :
    ∀ (props : List ConfigPropertyMeta) (env : List (String × String)),
      objGet (buildEnvVars props env) k =
        if props.any (fun p => p.key == k) then objGet env (propertyToEnvName k) else none
  | [], _ => rfl
  | p :: rest, env => by
    unfold buildEnvVars
    by_cases hp : p.key = k
    · subst hp
      cases henv : objGet env (propertyToEnvName p.key) with
      | some v => simp [objGet_cons, henv]
      | none =>
        simp only [henv, List.any_cons, beq_self_eq_true, Bool.true_or, if_pos]
        rw [objGet_buildEnvVars p.key rest env]
        by_cases hr : rest.any (fun q => q.key == p.key) = true
        · simp [hr, henv]
        · simp [hr]
    · cases henv : objGet env (propertyToEnvName p.key) with
      | some v =>
        simp only [objGet_cons, if_neg (by simpa using hp)]
        rw [objGet_buildEnvVars k rest env]
        simp [List.any_cons, hp]
      | none =>
        rw [objGet_buildEnvVars k rest env]
        simp [List.any_cons, hp]

theorem keys_buildEnvVars_sublist :
    ∀ (props : List ConfigPropertyMeta) (env : List (String × String)),
      ((buildEnvVars props env).map Prod.fst).Sublist (props.map ConfigPropertyMeta.key)
  | [], _ => List.Sublist.refl []
  | p :: rest, env => by
    unfold buildEnvVars
    cases objGet env (propertyToEnvName p.key) with
    | some v =>
      simpa using List.Sublist.cons₂ p.key (keys_buildEnvVars_sublist rest env)
    | none =>
      simpa using List.Sublist.cons p.key (keys_buildEnvVars_sublist rest env)

theorem nodup_keys_buildEnvVars (props : List ConfigPropertyMeta)
    (env : List (String × String)) (h : (props.map ConfigPropertyMeta.key).Nodup) :
    ((buildEnvVars props env).map Prod.fst).Nodup :=
  (keys_buildEnvVars_sublist props env).nodup h

/-! ### Characterization of a successful load -/

theorem loadRest_ok_spec (st : AggState) (w : World) (a : Loaded)
    (h : loadRest st w = .ok a) :
    a.allowedProperties = w.allowed ∧
    w.globalCreate = .ok a.globalConfig ∧
    a.localConfig = st.localConfig ∧
    a.envVars = buildEnvVars w.allowed w.processEnv ∧
    a.config = resolvedOf a := by
  unfold loadRest at h
  cases hg : w.globalCreate with
  | error e => rw [hg] at h; exact absurd h (by simp)
  | ok g =>
    rw [hg] at h
    simp only [Except.ok.injEq] at h
    subst h
    refine ⟨rfl, rfl, rfl, rfl, ?_⟩
    cases st.localConfig with
    | some lc => rfl
    | none => rfl

theorem create_ok_spec (w : World) (a : Loaded)
    (h : SfdxConfigAggregator.create w = .ok a) :
    a.allowedProperties = w.allowed ∧
    w.globalCreate = .ok a.globalConfig ∧
    a.envVars = buildEnvVars w.allowed w.processEnv ∧
    a.config = resolvedOf a ∧
    (∀ lc, w.localCreate = .ok lc → a.localConfig = some lc) ∧
    (∀ e, w.localCreate = .error e →
      e.name = "InvalidProjectWorkspace" ∧ a.localConfig = none) := by
  unfold SfdxConfigAggregator.create loadProperties at h
  cases hl : w.localCreate with
  | ok lc =>
    rw [hl] at h
    dsimp only at h
    cases hr : loadRest (setLocalConfig initialState lc) w with
    | error p => rw [hr] at h; exact absurd h (by simp)
    | ok b =>
      rw [hr] at h
      dsimp only at h
      obtain rfl := Except.ok.inj h
      obtain ⟨h1, h2, h3, h4, h5⟩ := loadRest_ok_spec _ w _ hr
      refine ⟨h1, h2, h4, h5, ?_, ?_⟩
      · intro lc2 hlc2
        obtain rfl := Except.ok.inj hlc2
        exact h3
      · intro e2 he2
        exact Except.noConfusion he2
  | error e =>
    rw [hl] at h
    dsimp only at h
    by_cases hname : e.name ≠ "InvalidProjectWorkspace"
    · rw [if_pos hname] at h
      exact absurd h (by simp)
    · rw [if_neg hname] at h
      rw [Classical.not_not] at hname
      cases hr : loadRest initialState w with
      | error p => rw [hr] at h; exact absurd h (by simp)
      | ok b =>
        rw [hr] at h
        dsimp only at h
        obtain rfl := Except.ok.inj h
        obtain ⟨h1, h2, h3, h4, h5⟩ := loadRest_ok_spec _ w _ hr
        refine ⟨h1, h2, h4, h5, ?_, ?_⟩
        · intro lc2 hlc2
          exact Except.noConfusion hlc2
        · intro e2 he2
          obtain rfl := Except.error.inj he2
          exact ⟨hname, h3⟩

/-- Point-wise description of the resolved snapshot of a successful load:
per key, the Environment value (as a string) when present, else the Local
store's binding, else the Global store's binding.  The no-duplicate-key
hypotheses state that store contents and the schema are genuine JS
objects / key sets. -/
theorem objGet_config_spec (w : World) (a : Loaded)
    (h : SfdxConfigAggregator.create w = .ok a)
    (hg : (a.globalConfig.contents.map Prod.fst).Nodup)
    (hlo : ((localObj a.localConfig).map Prod.fst).Nodup)
    (hal : (w.allowed.map ConfigPropertyMeta.key).Nodup)
    (k : String) :
    objGet a.config k =
      match objGet a.envVars k with
      | some v => some (Val.str v)
      | none =>
        match a.localConfig.bind (fun lc => lc.get k) with
        | some v => some v
        | none => a.globalConfig.get k := by
  obtain ⟨_, _, henv, hcfg, _, _⟩ := create_ok_spec w a h
  have henvnd : (a.envVars.map Prod.fst).Nodup := by
    rw [henv]; exact nodup_keys_buildEnvVars w.allowed w.processEnv hal
  rw [hcfg]
  unfold resolvedOf
  rw [objGet_mergeObj, objGet_mergeObj, objGet_mergeObj,
    lastVal_eq_objGet k _ (by rw [keys_envAsObject]; exact henvnd),
    objGet_envAsObject,
    lastVal_eq_objGet k _ hlo,
    lastVal_eq_objGet k _ hg,
    show a.localConfig.bind (fun lc => lc.get k) = objGet (localObj a.localConfig) k from
      (by cases a.localConfig <;> rfl)]
  simp only [SfdxConfig.get]
  cases objGet a.envVars k with
  | some v => rfl
  | none =>
    cases objGet (localObj a.localConfig) k with
    | some v => rfl
    | none =>
      cases objGet a.globalConfig.contents k <;> rfl

theorem any_key_beq_iff (props : List ConfigPropertyMeta) (key : String) :
    props.any (fun element => key == element.key) = true ↔
      key ∈ props.map ConfigPropertyMeta.key := by
  rw [List.any_eq_true]
  constructor
  · rintro ⟨e, he, hbeq⟩
    exact (beq_iff_eq.mp hbeq).symm ▸ List.mem_map_of_mem ConfigPropertyMeta.key he
  · intro hm
    obtain ⟨e, he, hk⟩ := List.mem_map.mp hm
    exact ⟨e, he, beq_iff_eq.mpr hk.symm⟩

theorem isSome_of_truthyOpt (o : Option Val) (h : truthyOpt o = true) : o.isSome = true := by
  cases o with
  | some v => rfl
  | none => exact absurd h (by simp [truthyOpt])

/-- The resolved snapshot of a successful load never holds duplicate keys
(it is built by JS object assignment starting from an empty object). -/
theorem nodup_keys_config (w : World) (a : Loaded)
    (h : SfdxConfigAggregator.create w = .ok a) : (a.config.map Prod.fst).Nodup := by
  obtain ⟨_, _, _, hcfg, _, _⟩ := create_ok_spec w a h
  rw [hcfg]
  exact nodup_keys_mergeObj _ _ (nodup_keys_mergeObj _ _ (nodup_keys_mergeObj _ _ List.nodup_nil))

theorem mapM_getInfo_keys (a : Loaded) :
    ∀ keys : List String,
      (∀ k ∈ keys, a.allowedProperties.any (fun element => k == element.key) = true) →
      ∃ info, keys.mapM a.getInfo = .ok info ∧ info.map ConfigInfo.key = keys
  | [], _ => ⟨[], rfl, rfl⟩
  | k :: ks, h => by
    have hk := h k (List.mem_cons_self k ks)
    obtain ⟨info, h1, h2⟩ :=
      mapM_getInfo_keys a ks (fun x hx => h x (List.mem_cons_of_mem k hx))
    have hinfo : a.getInfo k = .ok ⟨k, a.getLocation k, objGet a.config k, a.getPath k⟩ := by
      unfold Loaded.getInfo Loaded.getPropertyValue
      rw [if_pos hk]
    refine ⟨⟨k, a.getLocation k, objGet a.config k, a.getPath k⟩ :: info, ?_, ?_⟩
    · rw [List.mapM_cons, hinfo, h1]
      rfl
    · rw [List.map_cons, h2]

theorem pairwise_lt_of_le_nodup (l : List String)
    (hle : l.Pairwise (· ≤ ·)) (hnd : l.Nodup) : l.Pairwise (· < ·) :=
  (hle.and hnd).imp (fun hab => lt_of_le_of_ne hab.1 hab.2)

/-! ### Claims -/

/-- Claim C1: for every key in the allowed schema, the resolved value
returned by `getPropertyValue` follows the fixed precedence
Environment > Local > Global: the snapshot is built by starting from
Global's contents, overlaying Local's contents key-by-key, then overlaying
the Environment values on top, as a last-writer-wins overlay per key; in
particular, for a key with values set in all three layers,
`getPropertyValue` returns the Environment value. -/
theorem getValue_environment_precedence (w : World) (a : Loaded)
    (h : SfdxConfigAggregator.create w = .ok a)
    (hg : (a.globalConfig.contents.map Prod.fst).Nodup)
    (hlo : ((localObj a.localConfig).map Prod.fst).Nodup)
    (hal : (w.allowed.map ConfigPropertyMeta.key).Nodup)
    (key : String) (v : String)
    (hallow : a.allowedProperties.any (fun element => key == element.key) = true)
    (henv : objGet a.envVars key = some v)
    (lc : SfdxConfig) (hlc : a.localConfig = some lc)
    (hlv : (lc.get key).isSome = true)
    (hgv : (a.globalConfig.get key).isSome = true) :
    a.config = mergeObj (mergeObj (mergeObj [] a.globalConfig.contents)
      (localObj a.localConfig)) (envAsObject a.envVars) ∧
    a.getPropertyValue key = .ok (some (Val.str v)) := by
  obtain ⟨_, _, _, hcfg, _, _⟩ := create_ok_spec w a h
  refine ⟨hcfg, ?_⟩
  unfold Loaded.getPropertyValue
  rw [if_pos hallow, objGet_config_spec w a h hg hlo hal key, henv]

/-- Witness for C1: in a world where `apiVersion` is `40.0` in the Local
file, `38.0` in the Global file and `42.0` in the environment, the resolved
value is the environment's `42.0`. -/
theorem getValue_environment_precedence_witness :
    SfdxConfigAggregator.create wAll = .ok aAll ∧
    aAll.getPropertyValue "apiVersion" = .ok (some (Val.str "42.0")) :=
  ⟨by decide,
    (getValue_environment_precedence wAll aAll (by decide) (by decide) (by decide)
      (by decide) "apiVersion" "42.0" (by decide) (by decide)
      ⟨[("apiVersion", .str "40.0")], "/project/.sfdx/sfdx-config.json"⟩ (by decide)
      (by decide) (by decide)).2⟩

/-- Claim C5: `getPropertyValue` throws `UnknownConfigKey` if and only if
the queried key is not in the allowed-keys schema, regardless of whether
any layer holds a value for that string; a schema-allowed key with no
value in any layer returns `undefined` rather than erroring. -/
theorem getValue_unknown_key_iff (a : Loaded) (key : String) :
    (key ∉ a.allowedProperties.map ConfigPropertyMeta.key →
      a.getPropertyValue key = .error ⟨s!"Unknown config key: {key}", "UnknownConfigKey"⟩) ∧
    (key ∈ a.allowedProperties.map ConfigPropertyMeta.key → objGet a.config key = none →
      a.getPropertyValue key = .ok none) ∧
    (∀ e, a.getPropertyValue key = .error e →
      e.name = "UnknownConfigKey" ∧ key ∉ a.allowedProperties.map ConfigPropertyMeta.key) := by
  unfold Loaded.getPropertyValue
  by_cases hmem : key ∈ a.allowedProperties.map ConfigPropertyMeta.key
  · have hb := (any_key_beq_iff a.allowedProperties key).mpr hmem
    rw [if_pos hb]
    refine ⟨fun hc => absurd hmem hc, fun _ hnone => by rw [hnone], fun e he => ?_⟩
    exact absurd he (by simp)
  · have hb : ¬(a.allowedProperties.any (fun element => key == element.key) = true) :=
      fun hc => hmem ((any_key_beq_iff a.allowedProperties key).mp hc)
    rw [if_neg hb]
    refine ⟨fun _ => rfl, fun hc => absurd hc hmem, fun e he => ?_⟩
    have hee : SfdxError.mk s!"Unknown config key: {key}" "UnknownConfigKey" = e :=
      Except.error.inj he
    exact ⟨hee ▸ rfl, hmem⟩

/-- Witness for C5: `rogue` is outside the schema of `aRogue` (even though
the Global file holds a value for it), and `getPropertyValue` throws
`UnknownConfigKey` on it. -/
theorem getValue_unknown_key_iff_witness :
    ("rogue" ∉ aRogue.allowedProperties.map ConfigPropertyMeta.key) ∧
    aRogue.getPropertyValue "rogue" =
      .error ⟨"Unknown config key: rogue", "UnknownConfigKey"⟩ :=
  ⟨by decide, (getValue_unknown_key_iff aRogue "rogue").1 (by decide)⟩

/-- Claim C7: `getPath` follows the Environment > Local > Global precedence
using raw presence (non-nil membership) in each layer's contents rather
than truthiness: the `$`-prefixed synthesized env-var name when the
Environment holds the key, else the Local store's path when its contents
contain the key, else the Global store's path when its contents contain
it, else no path. -/
theorem getPath_presence_precedence (a : Loaded) (key : String) :
    ((objGet a.envVars key).isSome = true →
      a.getPath key = some ("$" ++ propertyToEnvName key)) ∧
    (objGet a.envVars key = none →
      ∀ lc, a.localConfig = some lc → (objGet lc.contents key).isSome = true →
        a.getPath key = some lc.path) ∧
    (objGet a.envVars key = none →
      (match a.localConfig with
       | some lc => (objGet lc.contents key).isSome
       | none => false) = false →
      (objGet a.globalConfig.contents key).isSome = true →
      a.getPath key = some a.globalConfig.path) ∧
    (objGet a.envVars key = none →
      (match a.localConfig with
       | some lc => (objGet lc.contents key).isSome
       | none => false) = false →
      (objGet a.globalConfig.contents key).isSome = false →
      a.getPath key = none) := by
  refine ⟨?_, ?_, ?_, ?_⟩
  · intro h1
    unfold Loaded.getPath
    rw [if_pos h1]
  · intro h1 lc hlc h2
    unfold Loaded.getPath
    rw [h1, if_neg (by simp), hlc, if_pos h2]
    rfl
  · intro h1 h2 h3
    unfold Loaded.getPath
    rw [h1, if_neg (by simp), if_neg (by simp [h2]), if_pos h3]
  · intro h1 h2 h3
    unfold Loaded.getPath
    rw [h1, if_neg (by simp), if_neg (by simp [h2]), if_neg (by simp [h3])]

/-- Witness for C7: in the spec's scenario (env `SFDX_LOG_LEVEL=DEBUG`, no
local project, global file holding `logLevel`), `getPath('logLevel')`
returns `$SFDX_LOG_LEVEL`. -/
theorem getPath_presence_precedence_witness :
    (objGet aScenario.envVars "logLevel").isSome = true ∧
    aScenario.getPath "logLevel" = some "$SFDX_LOG_LEVEL" :=
  ⟨by decide, (getPath_presence_precedence aScenario "logLevel").1 (by decide)⟩

/-- Claim C9: the environment-variable name used both for lookup during
load and for the `$`-prefixed display name of `getPath` is `SFDX_` followed
by the upper-cased snake-case transformation of the key; in particular
`defaultusername` maps to `SFDX_DEFAULTUSERNAME` and `apiVersion` to
`SFDX_API_VERSION`. -/
theorem propertyToEnvName_spec :
    (∀ k : String, propertyToEnvName k = "SFDX_" ++ toUpperAscii (snakeCase k)) ∧
    propertyToEnvName "defaultusername" = "SFDX_DEFAULTUSERNAME" ∧
    propertyToEnvName "apiVersion" = "SFDX_API_VERSION" ∧
    (∀ (props : List ConfigPropertyMeta) (env : List (String × String)) (k : String),
      objGet (buildEnvVars props env) k =
        if props.any (fun p => p.key == k) then objGet env (propertyToEnvName k) else none) ∧
    (∀ (a : Loaded) (key : String), (objGet a.envVars key).isSome = true →
      a.getPath key = some ("$" ++ propertyToEnvName key)) := by
  refine ⟨fun k => rfl, by decide, by decide,
    fun props env k => objGet_buildEnvVars k props env, ?_⟩
  intro a key h1
  unfold Loaded.getPath
  rw [if_pos h1]

/-- Witness for C9: the loaded `aAll` resolves `apiVersion` from the
environment, and its path is the synthesized `$`-name. -/
theorem propertyToEnvName_spec_witness :
    (objGet aAll.envVars "apiVersion").isSome = true ∧
    aAll.getPath "apiVersion" = some "$SFDX_API_VERSION" :=
  ⟨by decide, propertyToEnvName_spec.2.2.2.2 aAll "apiVersion" (by decide)⟩

/-- Claim C6: truthiness asymmetry between value resolution and location:
when the Local layer sets a key to `false`, the Global layer sets it to
`true` and the Environment does not set it, `getLocation` returns Global
(Local's falsy value is skipped for location purposes) while
`getPropertyValue` still returns Local's `false` (the merge picks Local's
falsy value as the resolved value). -/
theorem truthiness_asymmetry (w : World) (a : Loaded)
    (h : SfdxConfigAggregator.create w = .ok a)
    (hg : (a.globalConfig.contents.map Prod.fst).Nodup)
    (hlo : ((localObj a.localConfig).map Prod.fst).Nodup)
    (hal : (w.allowed.map ConfigPropertyMeta.key).Nodup)
    (key : String) (lc : SfdxConfig)
    (hlc : a.localConfig = some lc)
    (hlv : lc.get key = some (Val.boolVal false))
    (hgv : a.globalConfig.get key = some (Val.boolVal true))
    (henv : objGet a.envVars key = none)
    (hallow : a.allowedProperties.any (fun element => key == element.key) = true) :
    a.getLocation key = some LOCATIONS.GLOBAL ∧
    a.getPropertyValue key = .ok (some (Val.boolVal false)) := by
  constructor
  · unfold Loaded.getLocation
    rw [henv, if_neg (by simp), hlc,
      if_neg (by simp [hlv, truthyOpt, Val.truthy]),
      if_pos (by simp [hgv, truthyOpt, Val.truthy])]
  · unfold Loaded.getPropertyValue
    rw [if_pos hallow, objGet_config_spec w a h hg hlo hal key, henv, hlc,
      show (some lc).bind (fun lc => lc.get key) = lc.get key from rfl, hlv]

/-- Witness for C6: with Local `restDeploy = false` and Global
`restDeploy = true`, the location is Global but the value is `false`. -/
theorem truthiness_asymmetry_witness :
    SfdxConfigAggregator.create wAsym = .ok aAsym ∧
    aAsym.getLocation "restDeploy" = some LOCATIONS.GLOBAL ∧
    aAsym.getPropertyValue "restDeploy" = .ok (some (Val.boolVal false)) :=
  ⟨by decide,
    truthiness_asymmetry wAsym aAsym (by decide) (by decide) (by decide) (by decide)
      "restDeploy" ⟨[("restDeploy", .boolVal false)], "/project/.sfdx/sfdx-config.json"⟩
      (by decide) (by decide) (by decide) (by decide) (by decide)⟩

/-- Counterexample to C2 as stated: in `wFalsy` the key `restDeploy` is
present in the resolved snapshot (with value `false` from the Global
file), yet `getLocation` reports no Source at all — not exactly one. -/
theorem getLocation_none_for_snapshot_key :
    SfdxConfigAggregator.create wFalsy = .ok aFalsy ∧
    "restDeploy" ∈ aFalsy.config.map Prod.fst ∧
    aFalsy.getLocation "restDeploy" = none := by decide

/-- Claim C2 (amended): for every key present in the resolved snapshot,
`getLocation` reports at most one Source, and any reported Source is one
of the layers that actually contains the key (no phantom provenance); but
when the Environment lacks the key and neither file layer holds a truthy
value for it, `getLocation` reports no Source at all, even for a key
present in the snapshot. -/
theorem getLocation_at_most_one_no_phantom (a : Loaded) (key : String)
    (hmem : key ∈ a.config.map Prod.fst) :
    (a.getLocation key = some LOCATIONS.ENVIRONMENT →
      (objGet a.envVars key).isSome = true) ∧
    (a.getLocation key = some LOCATIONS.LOCAL →
      (match a.localConfig with
       | some lc => (lc.get key).isSome
       | none => false) = true) ∧
    (a.getLocation key = some LOCATIONS.GLOBAL →
      (a.globalConfig.get key).isSome = true) ∧
    (a.getLocation key = none ↔
      (objGet a.envVars key).isSome = false ∧
      (match a.localConfig with
       | some lc => truthyOpt (lc.get key)
       | none => false) = false ∧
      truthyOpt (a.globalConfig.get key) = false) := by
  unfold Loaded.getLocation
  by_cases h1 : (objGet a.envVars key).isSome = true
  · rw [if_pos h1]
    refine ⟨fun _ => h1, fun hc => absurd hc (by simp), fun hc => absurd hc (by simp), ?_⟩
    constructor
    · intro hc; exact absurd hc (by simp)
    · rintro ⟨hb1, _, _⟩; exact Bool.noConfusion (h1.symm.trans hb1)
  · rw [if_neg h1]
    have h1f : (objGet a.envVars key).isSome = false := Bool.eq_false_iff.mpr h1
    by_cases h2 : (match a.localConfig with
        | some lc => truthyOpt (lc.get key)
        | none => false) = true
    · rw [if_pos h2]
      refine ⟨fun hc => absurd hc (by simp), fun _ => ?_,
        fun hc => absurd hc (by simp), ?_⟩
      · cases hlc : a.localConfig with
        | none => rw [hlc] at h2; exact Bool.noConfusion h2
        | some lc =>
          rw [hlc] at h2
          exact isSome_of_truthyOpt _ h2
      · constructor
        · intro hc; exact absurd hc (by simp)
        · rintro ⟨_, hb2, _⟩; exact Bool.noConfusion (h2.symm.trans hb2)
    · rw [if_neg h2]
      have h2f := Bool.eq_false_iff.mpr h2
      by_cases h3 : truthyOpt (a.globalConfig.get key) = true
      · rw [if_pos h3]
        refine ⟨fun hc => absurd hc (by simp), fun hc => absurd hc (by simp),
          fun _ => isSome_of_truthyOpt _ h3, ?_⟩
        constructor
        · intro hc; exact absurd hc (by simp)
        · rintro ⟨_, _, hb3⟩; exact Bool.noConfusion (h3.symm.trans hb3)
      · rw [if_neg h3]
        exact ⟨fun hc => absurd hc (by simp), fun hc => absurd hc (by simp),
          fun hc => absurd hc (by simp),
          ⟨fun _ => ⟨h1f, h2f, Bool.eq_false_iff.mpr h3⟩, fun _ => rfl⟩⟩

/-- Witness for C2 (amended): `logLevel` is in `aScenario`'s snapshot, and
a reported Environment location implies the env-var layer holds the key. -/
theorem getLocation_at_most_one_no_phantom_witness :
    ("logLevel" ∈ aScenario.config.map Prod.fst) ∧
    (aScenario.getLocation "logLevel" = some LOCATIONS.ENVIRONMENT →
      (objGet aScenario.envVars "logLevel").isSome = true) :=
  ⟨by decide, (getLocation_at_most_one_no_phantom aScenario "logLevel" (by decide)).1⟩

/-- Counterexample to C3 as stated: in `wRogue` the merged snapshot holds
the non-schema key `rogue` (introduced only by the Global file), and
`getConfigInfo` does not return a record for it — the whole call throws
`UnknownConfigKey` instead. -/
theorem getConfigInfo_throws_on_nonschema_key :
    SfdxConfigAggregator.create wRogue = .ok aRogue ∧
    "rogue" ∈ aRogue.config.map Prod.fst ∧
    "rogue" ∉ aRogue.allowedProperties.map ConfigPropertyMeta.key ∧
    aRogue.getConfigInfo = .error ⟨"Unknown config key: rogue", "UnknownConfigKey"⟩ := by
  decide

/-- Claim C3 (amended): provided every key of the merged snapshot is in
the allowed-keys schema, `getConfigInfo` returns one `ConfigInfo` per key
of the snapshot, sorted by key in strictly ascending lexical order; when
the snapshot holds a key outside the schema the call instead throws
`UnknownConfigKey`. -/
theorem getConfigInfo_sorted_when_schema_covers (w : World) (a : Loaded)
    (h : SfdxConfigAggregator.create w = .ok a)
    (hcov : ∀ k ∈ a.config.map Prod.fst,
      a.allowedProperties.any (fun element => k == element.key) = true) :
    ∃ info, a.getConfigInfo = .ok info ∧
      (info.map ConfigInfo.key).Perm (a.config.map Prod.fst) ∧
      (info.map ConfigInfo.key).Pairwise (· < ·) := by
  obtain ⟨info, h1, h2⟩ := mapM_getInfo_keys a (a.config.map Prod.fst) hcov
  refine ⟨List.insertionSort keyLe info, ?_, ?_, ?_⟩
  · unfold Loaded.getConfigInfo
    rw [h1]
  · have hperm := (List.perm_insertionSort keyLe info).map ConfigInfo.key
    rw [h2] at hperm
    exact hperm
  · have hsorted : (List.insertionSort keyLe info).Sorted keyLe :=
      List.sorted_insertionSort keyLe info
    have hle : ((List.insertionSort keyLe info).map ConfigInfo.key).Pairwise (· ≤ ·) :=
      List.Pairwise.map ConfigInfo.key (fun x y hxy => hxy) hsorted
    apply pairwise_lt_of_le_nodup _ hle
    have hperm := (List.perm_insertionSort keyLe info).map ConfigInfo.key
    rw [h2] at hperm
    exact hperm.nodup_iff.mpr (nodup_keys_config w a h)

/-- Witness for C3 (amended): `aAll`'s snapshot keys are all in the schema
and its listing is returned sorted. -/
theorem getConfigInfo_sorted_when_schema_covers_witness :
    ∃ info, aAll.getConfigInfo = .ok info ∧
      (info.map ConfigInfo.key).Perm (aAll.config.map Prod.fst) ∧
      (info.map ConfigInfo.key).Pairwise (· < ·) :=
  getConfigInfo_sorted_when_schema_covers wAll aAll (by decide) (by decide)

/-- Counterexample to C4 as stated: reloading the previously loaded `aAll`
in a world whose Local store opens fine but whose Global store construction
fails fatally propagates the error, yet the aggregator's prior state is
NOT left untouched — its `localConfig` field has already been overwritten
with the newly constructed local store. -/
theorem reload_failure_partially_overwrites :
    loadProperties aAll.toState wFail = .error (eFail, setLocalConfig aAll.toState lcNew) ∧
    setLocalConfig aAll.toState lcNew ≠ aAll.toState := by decide

/-- Claim C4 (amended): any error other than `InvalidProjectWorkspace`
raised during load or reload propagates unmodified and aborts the load; a
failure in the very first step (constructing the Local store) leaves the
prior state untouched, but a failure in a later step (constructing the
Global store) leaves the fields already assigned — the new Local store —
in place, so a failed reload can leave the aggregator partially
overwritten. -/
theorem load_error_propagation (st : AggState) (w : World) :
    (∀ e, w.localCreate = .error e → e.name ≠ "InvalidProjectWorkspace" →
      loadProperties st w = .error (e, st)) ∧
    (∀ lc e, w.localCreate = .ok lc → w.globalCreate = .error e →
      loadProperties st w = .error (e, setLocalConfig st lc)) ∧
    (∀ e e2, w.localCreate = .error e → e.name = "InvalidProjectWorkspace" →
      w.globalCreate = .error e2 → loadProperties st w = .error (e2, st)) := by
  refine ⟨?_, ?_, ?_⟩
  · intro e hl hname
    unfold loadProperties
    rw [hl]
    dsimp only
    rw [if_pos hname]
  · intro lc e hl hg
    unfold loadProperties
    rw [hl]
    dsimp only
    unfold loadRest
    rw [hg]
  · intro e e2 hl hname hg
    unfold loadProperties
    rw [hl]
    dsimp only
    rw [if_neg (by simp [hname])]
    unfold loadRest
    rw [hg]

/-- Witness for C4 (amended): the failed reload of `aAll` under `wFail`
propagates `eFail` unmodified with the local store already overwritten. -/
theorem load_error_propagation_witness :
    loadProperties aAll.toState wFail = .error (eFail, setLocalConfig aAll.toState lcNew) :=
  (load_error_propagation aAll.toState wFail).2.1 lcNew eFail (by decide) (by decide)

/-- Claim C8: if constructing the Local layer fails with an error named
`InvalidProjectWorkspace`, construction of the aggregator still succeeds:
the error is swallowed, the Local layer is absent (`getLocalConfig`
returns nothing), and the resolved snapshot is built from the Global and
Environment layers only. -/
theorem create_swallows_invalid_project_workspace (w : World) (e : SfdxError) (g : SfdxConfig)
    (hl : w.localCreate = .error e) (hname : e.name = "InvalidProjectWorkspace")
    (hg : w.globalCreate = .ok g) :
    ∃ a, SfdxConfigAggregator.create w = .ok a ∧
      a.getLocalConfig = none ∧
      a.getGlobalConfig = g ∧
      a.config = mergeObj (mergeObj (mergeObj [] g.contents) (localObj none))
        (envAsObject (buildEnvVars w.allowed w.processEnv)) := by
  have hload : loadRest initialState w = .ok ⟨w.allowed, none, g,
      buildEnvVars w.allowed w.processEnv,
      mergeObj (mergeObj [] g.contents)
        (envAsObject (buildEnvVars w.allowed w.processEnv))⟩ := by
    unfold loadRest
    rw [hg]
    rfl
  refine ⟨⟨w.allowed, none, g, buildEnvVars w.allowed w.processEnv,
    mergeObj (mergeObj [] g.contents)
      (envAsObject (buildEnvVars w.allowed w.processEnv))⟩, ?_, rfl, rfl, rfl⟩
  unfold SfdxConfigAggregator.create loadProperties
  rw [hl]
  dsimp only
  rw [if_neg (by simp [hname]), hload]

/-- Witness for C8: creating the aggregator in `wScenario` (no project
workspace) succeeds with an absent local store. -/
theorem create_swallows_invalid_project_workspace_witness :
    ∃ a, SfdxConfigAggregator.create wScenario = .ok a ∧
      a.getLocalConfig = none ∧
      a.getGlobalConfig = ⟨[("logLevel", .str "INFO")], "/home/user/.sfdx/sfdx-config.json"⟩ ∧
      a.config = mergeObj (mergeObj (mergeObj []
          [("logLevel", Val.str "INFO")]) (localObj none))
        (envAsObject (buildEnvVars wScenario.allowed wScenario.processEnv)) :=
  create_swallows_invalid_project_workspace wScenario
    ⟨"no project workspace", "InvalidProjectWorkspace"⟩
    ⟨[("logLevel", .str "INFO")], "/home/user/.sfdx/sfdx-config.json"⟩
    (by decide) (by decide) (by decide)

/-- Claim C10: for a key outside the allowed-keys schema, `getLocation`
and `getPath` complete without error — returning the winning layer's
location/path when some layer contains the key and `null` otherwise —
while `getPropertyValue` and `getInfo` throw `UnknownConfigKey` for the
same key: the schema check applies only to the value and info queries. -/
theorem schema_check_only_for_value_queries (w : World) (a : Loaded)
    (h : SfdxConfigAggregator.create w = .ok a) (key : String)
    (hnot : key ∉ a.allowedProperties.map ConfigPropertyMeta.key) :
    a.getPropertyValue key = .error ⟨s!"Unknown config key: {key}", "UnknownConfigKey"⟩ ∧
    a.getInfo key = .error ⟨s!"Unknown config key: {key}", "UnknownConfigKey"⟩ ∧
    objGet a.envVars key = none ∧
    (a.getLocation key = some LOCATIONS.LOCAL ∨ a.getLocation key = some LOCATIONS.GLOBAL ∨
      a.getLocation key = none) ∧
    (a.getLocation key = none ↔
      (match a.localConfig with
       | some lc => truthyOpt (lc.get key)
       | none => false) = false ∧ truthyOpt (a.globalConfig.get key) = false) ∧
    (a.getPath key = none ↔
      (match a.localConfig with
       | some lc => (objGet lc.contents key).isSome
       | none => false) = false ∧ (objGet a.globalConfig.contents key).isSome = false) := by
  have hb : ¬(a.allowedProperties.any (fun element => key == element.key) = true) :=
    fun hc => hnot ((any_key_beq_iff a.allowedProperties key).mp hc)
  have hval : a.getPropertyValue key =
      .error ⟨s!"Unknown config key: {key}", "UnknownConfigKey"⟩ := by
    unfold Loaded.getPropertyValue
    rw [if_neg hb]
  have henv : objGet a.envVars key = none := by
    obtain ⟨hap, _, he, _, _, _⟩ := create_ok_spec w a h
    have hany : w.allowed.any (fun p => p.key == key) = false := by
      rw [Bool.eq_false_iff]
      intro hc
      obtain ⟨p, hp, hbeq⟩ := List.any_eq_true.mp hc
      exact (hap ▸ hnot)
        ((beq_iff_eq.mp hbeq) ▸ List.mem_map_of_mem ConfigPropertyMeta.key hp)
    rw [he, objGet_buildEnvVars key w.allowed w.processEnv, if_neg (by simp [hany])]
  refine ⟨hval, ?_, henv, ?_, ?_, ?_⟩
  · unfold Loaded.getInfo
    rw [hval]
  · unfold Loaded.getLocation
    rw [henv, if_neg (by simp)]
    by_cases h2 : (match a.localConfig with
        | some lc => truthyOpt (lc.get key)
        | none => false) = true
    · rw [if_pos h2]
      exact Or.inl rfl
    · rw [if_neg h2]
      by_cases h3 : truthyOpt (a.globalConfig.get key) = true
      · rw [if_pos h3]
        exact Or.inr (Or.inl rfl)
      · rw [if_neg h3]
        exact Or.inr (Or.inr rfl)
  · unfold Loaded.getLocation
    rw [henv, if_neg (by simp)]
    by_cases h2 : (match a.localConfig with
        | some lc => truthyOpt (lc.get key)
        | none => false) = true
    · rw [if_pos h2]
      constructor
      · intro hc; exact absurd hc (by simp)
      · rintro ⟨hb2, _⟩; exact Bool.noConfusion (h2.symm.trans hb2)
    · rw [if_neg h2]
      by_cases h3 : truthyOpt (a.globalConfig.get key) = true
      · rw [if_pos h3]
        constructor
        · intro hc; exact absurd hc (by simp)
        · rintro ⟨_, hb3⟩; exact Bool.noConfusion (h3.symm.trans hb3)
      · rw [if_neg h3]
        exact ⟨fun _ => ⟨Bool.eq_false_iff.mpr h2, Bool.eq_false_iff.mpr h3⟩, fun _ => rfl⟩
  · unfold Loaded.getPath
    rw [henv, if_neg (by simp)]
    cases hlc : a.localConfig with
    | none =>
      rw [if_neg (by simp)]
      by_cases h3 : (objGet a.globalConfig.contents key).isSome = true
      · rw [if_pos h3]
        constructor
        · intro hc; exact absurd hc (by simp)
        · rintro ⟨_, hb3⟩; exact Bool.noConfusion (h3.symm.trans hb3)
      · rw [if_neg h3]
        exact ⟨fun _ => ⟨rfl, Bool.eq_false_iff.mpr h3⟩, fun _ => rfl⟩
    | some lc =>
      by_cases h2 : (objGet lc.contents key).isSome = true
      · rw [if_pos h2]
        constructor
        · intro hc; exact absurd hc (by simp)
        · rintro ⟨hb2, _⟩; exact Bool.noConfusion (h2.symm.trans hb2)
      · rw [if_neg h2]
        by_cases h3 : (objGet a.globalConfig.contents key).isSome = true
        · rw [if_pos h3]
          constructor
          · intro hc; exact absurd hc (by simp)
          · rintro ⟨_, hb3⟩; exact Bool.noConfusion (h3.symm.trans hb3)
        · rw [if_neg h3]
          exact ⟨fun _ => ⟨Bool.eq_false_iff.mpr h2, Bool.eq_false_iff.mpr h3⟩, fun _ => rfl⟩

/-- Witness for C10: `rogue` is outside `aRogue`'s schema; `getInfo`
throws `UnknownConfigKey` on it while `getLocation` still completes. -/
theorem schema_check_only_for_value_queries_witness :
    ("rogue" ∉ aRogue.allowedProperties.map ConfigPropertyMeta.key) ∧
    aRogue.getInfo "rogue" = .error ⟨"Unknown config key: rogue", "UnknownConfigKey"⟩ :=
  ⟨by decide,
    (schema_check_only_for_value_queries wRogue aRogue (by decide) "rogue" (by decide)).2.1⟩

end SfdxCore
